import Mathlib

/-!
Verification development for the countdown-auction application.

The embedding models the domain core of the repository:
* `src/domain/time.ts` — `getRemainingTime`, `isExpired` (timestamps are
  millisecond counts, embedded as `Int`; the injectable `Clock` is embedded
  by passing the instant `now` explicitly, which is what a fake clock does).
* `src/domain/store.ts` — the in-memory `Map`-backed ledger.  A JavaScript
  `Map` keyed by id with insertion-order iteration is embedded as a
  `List Item` whose elements carry their own id; lookup is first-match
  (`Map` keys are unique, so first-match coincides with key lookup), update
  replaces the first matching element in place, and `Map.set` of a fresh key
  appends.
* `src/domain/sweeper.ts` — `closeExpiredItems`.
* `src/server/routes/items.ts` — `checkExpiration` and the bid endpoint.

Monetary amounts are JavaScript numbers on which the code only ever
compares and stores (never does arithmetic), so they are embedded as `Int`,
which preserves the order structure the code uses.
-/

namespace CountdownAuction

/-- Item status, from `src/domain/types.ts`: `'active' | 'closed'`. -/
inductive ItemStatus where
  | active
  | closed
  deriving DecidableEq, Repr

/-- Auction item, from `src/domain/types.ts`.  `Date` fields are epoch
milliseconds (`Int`); `currentBid : number | null` is `Option Int`. -/
structure Item where
  id : Nat
  title : String
  description : String
  startingPrice : Int
  currentBid : Option Int
  bidCount : Nat
  endsAt : Int
  status : ItemStatus
  createdAt : Int
  deriving DecidableEq, Repr

/-- `getRemainingTime(endsAt, clock) = endsAt.getTime() - clock.now().getTime()`
from `src/domain/time.ts`. -/
def getRemainingTime (endsAt now : Int) : Int :=
  endsAt - now

/-- `isExpired(endsAt, clock) = getRemainingTime(endsAt, clock) <= 0`
from `src/domain/time.ts`. -/
def isExpired (endsAt now : Int) : Bool :=
  decide (getRemainingTime endsAt now ≤ 0)

/-- The `Map` key test: `it.id == id`. -/
def byId (id : Nat) : Item → Bool :=
  fun it => it.id == id

/-- `getItemById(id) = items.get(id)` from `src/domain/store.ts`:
key lookup in the backing `Map`. -/
def getItemById (items : List Item) (id : Nat) : Option Item :=
  items.find? (byId id)

/-- In-place mutation of the entry with the given key: apply `f` to the
first element whose id matches (with unique `Map` keys, the only one). -/
def setFirst : List Item → Nat → (Item → Item) → List Item
  | [], _, _ => []
  | it :: rest, id, f =>
    if it.id == id then f it :: rest else it :: setFirst rest id f

/-- `updateItemStatus(id, status)` from `src/domain/store.ts`: look the item
up; if absent return `undefined`; otherwise set `item.status = status` in
place and return the updated item. -/
def updateItemStatus (items : List Item) (id : Nat) (st : ItemStatus) :
    Option Item × List Item :=
  match getItemById items id with
  | none => (none, items)
  | some it =>
      (some { it with status := st },
       setFirst items id (fun x => { x with status := st }))

/-- `placeBid(itemId, amount)` from `src/domain/store.ts`: `null` when the
item is absent; `minBid = item.currentBid ?? item.startingPrice`; `null`
when `amount <= minBid`; otherwise set `currentBid = amount`, increment
`bidCount`, and return the updated item. -/
def placeBid (items : List Item) (itemId : Nat) (amount : Int) :
    Option Item × List Item :=
  match getItemById items itemId with
  | none => (none, items)
  | some it =>
      let minBid := it.currentBid.getD it.startingPrice
      if amount ≤ minBid then (none, items)
      else
        (some { it with currentBid := some amount, bidCount := it.bidCount + 1 },
         setFirst items itemId
           (fun x => { x with currentBid := some amount, bidCount := x.bidCount + 1 }))

/-- `CreateItemInput` from `src/domain/types.ts` (the `endsAt` ISO string is
embedded already parsed, as the instant it denotes). -/
structure CreateItemInput where
  title : String
  description : String
  startingPrice : Int
  endsAt : Int
  deriving DecidableEq, Repr

/-- Process-level store state: the backing `Map` plus the `nextId` counter
from `src/domain/store.ts`. -/
structure StoreState where
  nextId : Nat
  items : List Item
  deriving DecidableEq, Repr

/-- `items.set(id, item)`: replace the entry when the key is present,
append otherwise (JavaScript `Map` insertion-order semantics). -/
def mapSet (items : List Item) (item : Item) : List Item :=
  if items.any (byId item.id) then setFirst items item.id (fun _ => item)
  else items ++ [item]

/-- `createItem(input)` from `src/domain/store.ts`: fresh id from the
counter, `currentBid = null`, `bidCount = 0`, `status = 'active'`,
`createdAt = now`, then `items.set(id, item)`. -/
def createItem (s : StoreState) (input : CreateItemInput) (now : Int) :
    Item × StoreState :=
  let item : Item :=
    { id := s.nextId
      title := input.title
      description := input.description
      startingPrice := input.startingPrice
      currentBid := none
      bidCount := 0
      endsAt := input.endsAt
      status := ItemStatus.active
      createdAt := now }
  (item, { nextId := s.nextId + 1, items := mapSet s.items item })

/-- The per-item effect of one expiration check: close the item when it is
`active` and expired, leave it alone otherwise (the shared rule of
`checkExpiration` in `src/server/routes/items.ts` and the sweep body in
`src/domain/sweeper.ts`). -/
def checkExpirationItem (now : Int) (it : Item) : Item :=
  if it.status = ItemStatus.active ∧ isExpired it.endsAt now then
    { it with status := ItemStatus.closed }
  else it

/-- `closeExpiredItems()` from `src/domain/sweeper.ts`: enumerate every item;
for each one that is `active` and expired, `updateItemStatus(id, 'closed')`
and count it.  `Map` keys are unique and each loop step mutates only the item
it is visiting (whose condition was read from that same item), so the loop is
this independent per-item pass; it returns the updated ledger and the count. -/
def closeExpiredItems (now : Int) : List Item → List Item × Nat
  | [] => ([], 0)
  | it :: rest =>
      let r := closeExpiredItems now rest
      if it.status = ItemStatus.active ∧ isExpired it.endsAt now then
        ({ it with status := ItemStatus.closed } :: r.1, r.2 + 1)
      else (it :: r.1, r.2)

/-- `checkExpiration(item)` from `src/server/routes/items.ts`: if the item is
`active` and expired, `updateItemStatus(item.id, 'closed')` and set
`item.status = 'closed'` on the fetched object; return the (possibly updated)
item together with the store it mutated. -/
def checkExpiration (items : List Item) (it : Item) (now : Int) :
    Item × List Item :=
  if it.status = ItemStatus.active ∧ isExpired it.endsAt now then
    ({ it with status := ItemStatus.closed },
     (updateItemStatus items it.id ItemStatus.closed).2)
  else (it, items)

/-- Request body of `POST /api/items/:id/bid`; `none` stands for a missing
or wrongly-typed field. -/
structure BidInput where
  amount : Option Int
  bidderId : Option String
  deriving DecidableEq, Repr

/-- The route's amount validation:
`typeof input.amount !== 'number' || input.amount <= 0` fails. -/
def validAmount : Option Int → Bool
  | none => false
  | some v => decide (0 < v)

/-- The route's bidder validation:
`!input.bidderId || typeof input.bidderId !== 'string'` fails
(the empty string is falsy). -/
def validBidder : Option String → Bool
  | none => false
  | some s => !(s == "")

/-- The distinguishable responses of `POST /api/items/:id/bid`. -/
inductive BidResponse where
  | badAmount
  | badBidder
  | itemNotFound
  | auctionEnded
  | lowBid (minimumBid : Int)
  | failed
  | ok (item : Item)
  deriving DecidableEq, Repr

/-- The `POST /api/items/:id/bid` handler from `src/server/routes/items.ts`:
validate `amount` then `bidderId`; 404 on unknown id; `checkExpiration`;
reject with "Auction has ended" when the (possibly just-updated) status is
`closed`; reject low bids with the minimum; otherwise `placeBid`. -/
def bidRoute (items : List Item) (id : Nat) (input : BidInput) (now : Int) :
    BidResponse × List Item :=
  if !validAmount input.amount then (BidResponse.badAmount, items)
  else if !validBidder input.bidderId then (BidResponse.badBidder, items)
  else
    match getItemById items id with
    | none => (BidResponse.itemNotFound, items)
    | some item =>
        let checked := checkExpiration items item now
        if checked.1.status = ItemStatus.closed then
          (BidResponse.auctionEnded, checked.2)
        else
          let minBid := checked.1.currentBid.getD checked.1.startingPrice
          if input.amount.getD 0 ≤ minBid then
            (BidResponse.lowBid minBid, checked.2)
          else
            let placed := placeBid checked.2 id (input.amount.getD 0)
            match placed.1 with
            | none => (BidResponse.failed, placed.2)
            | some upd => (BidResponse.ok upd, placed.2)

/-- `GET /api/items/:id` from `src/server/routes/items.ts`: 404 on unknown
id, otherwise return `checkExpiration(item)`. -/
def getItemRoute (items : List Item) (id : Nat) (now : Int) :
    Option Item × List Item :=
  match getItemById items id with
  | none => (none, items)
  | some it =>
      let checked := checkExpiration items it now
      (some checked.1, checked.2)

/-- `GET /api/items`: `getAllItems().map(checkExpiration)`.  Each
`checkExpiration` closes only the item it is applied to (reading that item's
own fields), so over the unique-keyed `Map` the pass is the per-item map. -/
def getAllRoute (items : List Item) (now : Int) : List Item :=
  items.map (checkExpirationItem now)

/-- One externally-triggerable operation of the system, for the
persistence-of-closed invariant: item creation, the two lazy-check read
routes, the eager sweep, and the bid route. -/
inductive Op where
  | create (input : CreateItemInput) (now : Int)
  | getOne (id : Nat) (now : Int)
  | getAll (now : Int)
  | sweep (now : Int)
  | bid (id : Nat) (input : BidInput) (now : Int)
  deriving DecidableEq, Repr

/-- The state transition of one operation (responses discarded). -/
def applyOp (s : StoreState) : Op → StoreState
  | Op.create input now => (createItem s input now).2
  | Op.getOne id now => { s with items := (getItemRoute s.items id now).2 }
  | Op.getAll now => { s with items := getAllRoute s.items now }
  | Op.sweep now => { s with items := (closeExpiredItems now s.items).1 }
  | Op.bid id input now => { s with items := (bidRoute s.items id input now).2 }

/-- Run a sequence of operations. -/
def applyOps (s : StoreState) (ops : List Op) : StoreState :=
  ops.foldl applyOp s

/-- Well-formedness maintained by `src/domain/store.ts`: every id ever handed
out is below the `nextId` counter, so `createItem` never collides with an
existing key. -/
def wfState (s : StoreState) : Bool :=
  s.items.all (fun it => it.id < s.nextId)

/-- Drive `placeBid` on one item with a sequence of requested amounts, in
order, collecting the amounts that were accepted.  This is the ledger-level
trace the bid-sequence invariants quantify over. -/
def applyBidsStore (id : Nat) : List Item → List Int → List Item × List Int
  | items, [] => (items, [])
  | items, a :: rest =>
      let r := placeBid items id a
      match r.1 with
      | none =>
          let q := applyBidsStore id r.2 rest
          (q.1, q.2)
      | some _ =>
          let q := applyBidsStore id r.2 rest
          (q.1, a :: q.2)

/-- A concrete item for instantiating the theorems. -/
def mkItem (id : Nat) (sp : Int) (cb : Option Int) (bc : Nat) (ends : Int)
    (st : ItemStatus) : Item :=
  { id := id
    title := "vintage radio"
    description := "demo listing"
    startingPrice := sp
    currentBid := cb
    bidCount := bc
    endsAt := ends
    status := st
    createdAt := 0 }

/-- A fresh active item: id 1, starting price 10, deadline at instant 100. -/
def demoActiveItem : Item := mkItem 1 10 none 0 100 ItemStatus.active

/-- An already-closed item: id 1, deadline at instant 100. -/
def demoClosedItem : Item := mkItem 1 10 none 0 100 ItemStatus.closed

/-- The spec's multiple-item sweep scenario at `now = 0`: deadlines two hours
past, one hour past, and two hours ahead (in milliseconds). -/
def demoSweepStore : List Item :=
  [mkItem 1 10 none 0 (-7200000) ItemStatus.active,
   mkItem 2 10 none 0 (-3600000) ItemStatus.active,
   mkItem 3 10 none 0 7200000 ItemStatus.active]

/-! ### Basic lemmas about the ledger embedding -/

theorem isExpired_true_iff (endsAt now : Int) :
    isExpired endsAt now = true ↔ endsAt ≤ now := by
  simp only [isExpired, getRemainingTime, decide_eq_true_eq]
  omega

theorem setFirst_length (items : List Item) (id : Nat) (f : Item → Item) :
    (setFirst items id f).length = items.length := by
  induction items with
  | nil => rfl
  | cons it rest ih =>
      simp only [setFirst]
      by_cases h : it.id == id <;> simp [h, ih]

theorem find?_setFirst_eq (items : List Item) (id : Nat) (f : Item → Item)
    (hf : ∀ x, (f x).id = x.id) :
    (setFirst items id f).find? (byId id) = (items.find? (byId id)).map f := by
  induction items with
  | nil => rfl
  | cons it rest ih =>
      by_cases h : it.id = id
      · simp [setFirst, byId, h, hf]
      · simp [setFirst, byId, h, ih]

theorem find?_setFirst_ne (items : List Item) (id k : Nat) (f : Item → Item)
    (hf : ∀ x, (f x).id = x.id) (hk : k ≠ id) :
    (setFirst items id f).find? (byId k) = items.find? (byId k) := by
  induction items with
  | nil => rfl
  | cons it rest ih =>
      by_cases h : it.id = id
      · have hne : ¬ (f it).id = k := by rw [hf]; omega
        have hne' : ¬ it.id = k := by omega
        have hb : (id == k) = false := beq_eq_false_iff_ne.mpr (Ne.symm hk)
        simp [setFirst, byId, h, hne, hne', hb, List.find?]
      · by_cases h2 : it.id = k
        · simp [setFirst, byId, h, h2, hk, List.find?]
        · have hb : (it.id == k) = false := beq_eq_false_iff_ne.mpr h2
          simp [setFirst, byId, h, h2, hb, ih, List.find?]

theorem find?_map_idpres (items : List Item) (g : Item → Item)
    (hg : ∀ x, (g x).id = x.id) (k : Nat) :
    (items.map g).find? (byId k) = (items.find? (byId k)).map g := by
  induction items with
  | nil => rfl
  | cons it rest ih =>
      by_cases h : it.id = k
      · simp [byId, h, hg]
      · simp [byId, h, hg, ih]

theorem find?_append_of_some (items l : List Item) (p : Item → Bool) (x : Item)
    (h : items.find? p = some x) : (items ++ l).find? p = some x := by
  induction items with
  | nil => simp [List.find?] at h
  | cons it rest ih =>
      by_cases hp : p it
      · simp_all [List.find?_cons_of_pos]
      · rw [List.find?_cons_of_neg _ hp] at h
        simpa [List.find?_cons_of_neg, hp] using ih h

theorem get_setFirst_cases (items : List Item) (id : Nat) (f : Item → Item)
    (i : Nat) (h : i < items.length) (h' : i < (setFirst items id f).length) :
    (setFirst items id f).get ⟨i, h'⟩ = items.get ⟨i, h⟩ ∨
    (setFirst items id f).get ⟨i, h'⟩ = f (items.get ⟨i, h⟩) := by
  induction items generalizing i with
  | nil => simp at h
  | cons it rest ih =>
      by_cases hc : it.id == id
      · cases i with
        | zero => right; simp [setFirst, hc]
        | succ n => left; simp [setFirst, hc]
      · cases i with
        | zero => left; simp [setFirst, hc]
        | succ n =>
            have hrest : n < rest.length := by simpa using h
            have hrest' : n < (setFirst rest id f).length := by
              rw [setFirst_length]; exact hrest
            simpa [setFirst, hc] using ih n hrest hrest'

theorem get_setFirst_of_ne (items : List Item) (id : Nat) (f : Item → Item)
    (i : Nat) (h : i < items.length) (h' : i < (setFirst items id f).length)
    (hne : (items.get ⟨i, h⟩).id ≠ id) :
    (setFirst items id f).get ⟨i, h'⟩ = items.get ⟨i, h⟩ := by
  induction items generalizing i with
  | nil => simp at h
  | cons it rest ih =>
      by_cases hc : it.id == id
      · cases i with
        | zero =>
            exfalso
            exact hne (by simpa [List.get] using (beq_iff_eq.mp hc))
        | succ n => simp [setFirst, hc]
      · cases i with
        | zero => simp [setFirst, hc]
        | succ n =>
            have hrest : n < rest.length := by simpa using h
            have hrest' : n < (setFirst rest id f).length := by
              rw [setFirst_length]; exact hrest
            have hne' : (rest.get ⟨n, hrest⟩).id ≠ id := by
              simpa [List.get] using hne
            simpa [setFirst, hc] using ih n hrest hrest' hne'

theorem setFirst_map_id (items : List Item) (id : Nat) (f : Item → Item)
    (hf : ∀ x, (f x).id = x.id) :
    (setFirst items id f).map (fun it => it.id) = items.map (fun it => it.id) := by
  induction items with
  | nil => rfl
  | cons it rest ih =>
      by_cases hc : it.id == id
      · simp [setFirst, hc, hf]
      · simp [setFirst, hc, ih]

theorem checkExpirationItem_id (now : Int) (it : Item) :
    (checkExpirationItem now it).id = it.id := by
  unfold checkExpirationItem
  split <;> rfl

theorem checkExpirationItem_closed (now : Int) (it : Item)
    (h : it.status = ItemStatus.closed) :
    (checkExpirationItem now it).status = ItemStatus.closed := by
  unfold checkExpirationItem
  split <;> simp [h]

theorem closeExpiredItems_fst (now : Int) (items : List Item) :
    (closeExpiredItems now items).1 = items.map (checkExpirationItem now) := by
  induction items with
  | nil => rfl
  | cons it rest ih =>
      by_cases hc : it.status = ItemStatus.active ∧ isExpired it.endsAt now
      · simp [closeExpiredItems, checkExpirationItem, hc, ih]
      · simp [closeExpiredItems, checkExpirationItem, hc, ih]

theorem closeExpiredItems_snd (now : Int) (items : List Item) :
    (closeExpiredItems now items).2 =
      (items.filter
        (fun it => decide (it.status = ItemStatus.active) && isExpired it.endsAt now)).length := by
  induction items with
  | nil => rfl
  | cons it rest ih =>
      by_cases hc : it.status = ItemStatus.active ∧ isExpired it.endsAt now
      · simp [closeExpiredItems, List.filter, hc.1, hc.2, ih]
      · rcases Decidable.not_and_iff_or_not.mp hc with h1 | h2
        · simp [closeExpiredItems, List.filter, hc, h1, ih]
        · simp only [Bool.not_eq_true] at h2
          simp [closeExpiredItems, List.filter, hc, h2, ih]

theorem setFirst_of_find?_none (items : List Item) (id : Nat) (f : Item → Item)
    (h : items.find? (byId id) = none) : setFirst items id f = items := by
  induction items with
  | nil => rfl
  | cons it rest ih =>
      rw [List.find?_cons] at h
      cases hb : byId id it
      · rw [hb] at h
        have : it.id ≠ id := by simpa [byId] using hb
        simp [setFirst, this, ih h]
      · rw [hb] at h
        exact absurd h (by simp)

theorem setFirst_map_comp {α : Type} (items : List Item) (id : Nat)
    (f : Item → Item) (g : Item → α) (hfg : ∀ x, g (f x) = g x) :
    (setFirst items id f).map g = items.map g := by
  induction items with
  | nil => rfl
  | cons it rest ih =>
      by_cases hc : it.id == id
      · simp [setFirst, hc, hfg]
      · simp [setFirst, hc, ih]

theorem updateItemStatus_snd (items : List Item) (id : Nat) (st : ItemStatus) :
    (updateItemStatus items id st).2 =
      setFirst items id (fun x => { x with status := st }) := by
  cases hfind : getItemById items id with
  | none =>
      simp only [updateItemStatus, hfind]
      exact (setFirst_of_find?_none items id _ hfind).symm
  | some it => simp only [updateItemStatus, hfind]

theorem placeBid_of_found (items : List Item) (id : Nat) (amount : Int) (it : Item)
    (hfind : getItemById items id = some it) :
    placeBid items id amount =
      if amount ≤ it.currentBid.getD it.startingPrice then (none, items)
      else
        (some { it with currentBid := some amount, bidCount := it.bidCount + 1 },
         setFirst items id
           (fun x => { x with currentBid := some amount, bidCount := x.bidCount + 1 })) := by
  simp only [placeBid]
  rw [hfind]

theorem placeBid_snd (items : List Item) (id : Nat) (amount : Int) :
    (placeBid items id amount).2 = items ∨
    (placeBid items id amount).2 =
      setFirst items id
        (fun x => { x with currentBid := some amount, bidCount := x.bidCount + 1 }) := by
  cases hfind : getItemById items id with
  | none =>
      left
      simp only [placeBid]
      rw [hfind]
  | some it =>
      rw [placeBid_of_found items id amount it hfind]
      by_cases hle : amount ≤ it.currentBid.getD it.startingPrice
      · left; simp [hle]
      · right; simp [hle]

theorem checkExpiration_snd (items : List Item) (probe : Item) (now : Int) :
    (checkExpiration items probe now).2 = items ∨
    (checkExpiration items probe now).2 =
      setFirst items probe.id (fun x => { x with status := ItemStatus.closed }) := by
  unfold checkExpiration
  by_cases hc : probe.status = ItemStatus.active ∧ isExpired probe.endsAt now
  · right
    simp only [if_pos hc]
    exact updateItemStatus_snd items probe.id ItemStatus.closed
  · left
    simp only [if_neg hc]

/-! ### Claim theorems -/

/-- C3: for every `endsAt` timestamp and every instant `now`,
`isExpired(endsAt, now)` is true if and only if `now >= endsAt`; in
particular it is true at the exact boundary `now = endsAt` (expiry is
inclusive), and false exactly when `now < endsAt`. -/
theorem c3_isExpired_iff_deadline_reached (endsAt now : Int) :
    (isExpired endsAt now = true ↔ endsAt ≤ now) ∧
    isExpired endsAt endsAt = true ∧
    (isExpired endsAt now = false ↔ now < endsAt) := by
  refine ⟨isExpired_true_iff endsAt now, ?_, ?_⟩
  · exact (isExpired_true_iff endsAt endsAt).mpr le_rfl
  · constructor
    · intro h
      by_contra hlt
      have := (isExpired_true_iff endsAt now).mpr (by omega)
      rw [h] at this
      exact Bool.false_ne_true this
    · intro h
      cases hb : isExpired endsAt now
      · rfl
      · have := (isExpired_true_iff endsAt now).mp hb
        omega

/-- C8: for an id present in the ledger, `updateItemStatus(id, newStatus)`
unconditionally overwrites the item's status with `newStatus` — for any
`newStatus`, including `'active'` on a `'closed'` item — and returns the
updated item; for an absent id it returns the not-found signal and leaves
the ledger untouched. -/
theorem c8_updateItemStatus_unconditional (items : List Item) (id : Nat)
    (st : ItemStatus) :
    (∀ it, getItemById items id = some it →
       (updateItemStatus items id st).1 = some { it with status := st } ∧
       getItemById (updateItemStatus items id st).2 id =
         some { it with status := st }) ∧
    (getItemById items id = none → updateItemStatus items id st = (none, items)) := by
  constructor
  · intro it hfind
    constructor
    · simp [updateItemStatus, getItemById] at hfind ⊢
      simp [hfind]
    · have hset := find?_setFirst_eq items id (fun x => { x with status := st })
        (fun _ => rfl)
      simp only [updateItemStatus, getItemById] at hfind ⊢
      simp [hfind, hset]
  · intro hfind
    simp only [updateItemStatus, getItemById] at hfind ⊢
    simp [hfind]

/-- Witness for C8: overwriting a closed item's status back to `'active'`
succeeds — the ledger imposes no guard on the direction. -/
theorem c8_witness :
    (updateItemStatus [demoClosedItem] 1 ItemStatus.active).1 =
      some { demoClosedItem with status := ItemStatus.active } ∧
    getItemById (updateItemStatus [demoClosedItem] 1 ItemStatus.active).2 1 =
      some { demoClosedItem with status := ItemStatus.active } :=
  (c8_updateItemStatus_unconditional [demoClosedItem] 1 ItemStatus.active).1
    demoClosedItem rfl

/-- C4 counterexample: `placeBid` returns the very same `null` signal for an
absent id (here id 2 with a winning amount) as for a too-low bid on a
present id (id 1 with amount 5 against starting price 10), so the
not-found outcome of `placeBid` itself is not distinguishable from the
low-bid rejection. -/
theorem c4_counterexample :
    placeBid [demoActiveItem] 2 50 = (none, [demoActiveItem]) ∧
    placeBid [demoActiveItem] 1 5 = (none, [demoActiveItem]) ∧
    (placeBid [demoActiveItem] 2 50).1 = (placeBid [demoActiveItem] 1 5).1 :=
  ⟨rfl, rfl, rfl⟩

/-- C4 amended: for an id present in the ledger, `placeBid` rejects exactly
when `amount <= (currentBid ?? startingPrice)`, leaving the ledger
unmutated, and on acceptance sets `currentBid = amount` and increments
`bidCount` by 1.  For an absent id it returns the same `null` rejection
signal, unmutated ledger included; not-found is made distinguishable at the
route boundary, which looks the item up and answers 404 before ever calling
`placeBid`. -/
theorem c4_placeBid_semantics (items : List Item) (id : Nat) (amount : Int) :
    (∀ it, getItemById items id = some it →
       (amount ≤ it.currentBid.getD it.startingPrice →
          placeBid items id amount = (none, items)) ∧
       (it.currentBid.getD it.startingPrice < amount →
          (placeBid items id amount).1 =
            some { it with currentBid := some amount, bidCount := it.bidCount + 1 } ∧
          getItemById (placeBid items id amount).2 id =
            some { it with currentBid := some amount, bidCount := it.bidCount + 1 })) ∧
    (getItemById items id = none → placeBid items id amount = (none, items)) ∧
    (∀ input now, validAmount input.amount = true → validBidder input.bidderId = true →
       getItemById items id = none →
       bidRoute items id input now = (BidResponse.itemNotFound, items)) := by
  refine ⟨?_, ?_, ?_⟩
  · intro it hfind
    constructor
    · intro hle
      simp only [placeBid]
      rw [hfind]
      simp only [if_pos hle]
    · intro hlt
      have hnle : ¬ amount ≤ it.currentBid.getD it.startingPrice := by omega
      have hset := find?_setFirst_eq items id
        (fun x => { x with currentBid := some amount, bidCount := x.bidCount + 1 })
        (fun _ => rfl)
      constructor
      · simp only [placeBid]
        rw [hfind]
        simp [hnle]
      · simp only [placeBid]
        rw [hfind]
        simp only [if_neg hnle, getItemById] at hset ⊢
        simp only [getItemById] at hfind
        simp [hset, hfind]
  · intro hfind
    simp only [placeBid]
    rw [hfind]
  · intro input now ha hb hfind
    simp only [bidRoute, ha, hb, Bool.not_true, Bool.false_eq_true, if_false]
    rw [hfind]

/-- Witness for C4's amended theorem: on the demo item (starting price 10,
no bid yet) a bid of 5 is rejected without mutation, a bid of 50 is
accepted and recorded, and the bid route answers 404 on the absent id 2. -/
theorem c4_witness :
    placeBid [demoActiveItem] 1 5 = (none, [demoActiveItem]) ∧
    (placeBid [demoActiveItem] 1 50).1 =
      some { demoActiveItem with currentBid := some 50, bidCount := 1 } ∧
    bidRoute [demoActiveItem] 2 ⟨some 50, some "alice"⟩ 0 =
      (BidResponse.itemNotFound, [demoActiveItem]) := by
  have h := c4_placeBid_semantics [demoActiveItem] 1 5
  have h50 := c4_placeBid_semantics [demoActiveItem] 1 50
  have habs := c4_placeBid_semantics [demoActiveItem] 2 50
  refine ⟨(h.1 demoActiveItem rfl).1 (by decide), ?_, ?_⟩
  · exact ((h50.1 demoActiveItem rfl).2 (by decide)).1
  · exact habs.2.2 ⟨some 50, some "alice"⟩ 0 (by decide) (by decide) rfl

/-- C7: the eager sweep is idempotent — running `closeExpiredItems` again at
the same instant, with no intervening creation, closes zero items and
returns the ledger unchanged. -/
theorem c7_sweep_idempotent (now : Int) (items : List Item) :
    closeExpiredItems now (closeExpiredItems now items).1 =
      ((closeExpiredItems now items).1, 0) := by
  induction items with
  | nil => rfl
  | cons it rest ih =>
      by_cases hc : it.status = ItemStatus.active ∧ isExpired it.endsAt now
      · simp only [closeExpiredItems, if_pos hc]
        have hclosed : ¬ ({ it with status := ItemStatus.closed }.status = ItemStatus.active ∧
            isExpired { it with status := ItemStatus.closed }.endsAt now) := by
          simp
        simp [closeExpiredItems, hclosed, ih]
      · simp only [closeExpiredItems, if_neg hc]
        simp [closeExpiredItems, hc, ih]

/-- C6: one pass of the eager sweep closes exactly the items that are
`active` and expired at call time, leaves each non-expired active item
`active` (indeed completely unchanged) and each already-closed item
unchanged, and returns exactly the number of items it closed. -/
theorem c6_sweep_closes_exactly_expired (now : Int) (items : List Item) :
    (closeExpiredItems now items).1.length = items.length ∧
    (∀ i (h : i < items.length) (h' : i < (closeExpiredItems now items).1.length),
       ((items.get ⟨i, h⟩).status = ItemStatus.active →
          isExpired (items.get ⟨i, h⟩).endsAt now = true →
          (closeExpiredItems now items).1.get ⟨i, h'⟩ =
            { items.get ⟨i, h⟩ with status := ItemStatus.closed }) ∧
       ((items.get ⟨i, h⟩).status = ItemStatus.active →
          isExpired (items.get ⟨i, h⟩).endsAt now = false →
          (closeExpiredItems now items).1.get ⟨i, h'⟩ = items.get ⟨i, h⟩) ∧
       ((items.get ⟨i, h⟩).status = ItemStatus.closed →
          (closeExpiredItems now items).1.get ⟨i, h'⟩ = items.get ⟨i, h⟩)) ∧
    (closeExpiredItems now items).2 =
      (items.filter
        (fun it => decide (it.status = ItemStatus.active) && isExpired it.endsAt now)).length := by
  refine ⟨?_, ?_, closeExpiredItems_snd now items⟩
  · rw [closeExpiredItems_fst]
    exact items.length_map _
  · intro i h h'
    have hg : (closeExpiredItems now items).1.get ⟨i, h'⟩ =
        checkExpirationItem now (items.get ⟨i, h⟩) := by
      simp only [List.get_eq_getElem]
      simp only [closeExpiredItems_fst now items, List.getElem_map]
    refine ⟨?_, ?_, ?_⟩
    · intro hs he
      rw [hg]
      unfold checkExpirationItem
      rw [if_pos ⟨hs, he⟩]
    · intro hs he
      rw [hg]
      unfold checkExpirationItem
      rw [if_neg (by rw [List.get_eq_getElem] at he; simp [he])]
    · intro hs
      rw [hg]
      unfold checkExpirationItem
      rw [if_neg (by rw [List.get_eq_getElem] at hs; simp [hs])]

/-- Witness for C6, the spec's multiple-item scenario: deadlines two hours
past, one hour past, and two hours ahead of `now = 0`; the sweep closes
exactly the first two, leaves the third untouched, and reports 2. -/
theorem c6_witness :
    (closeExpiredItems 0 demoSweepStore).1.get ⟨0, by decide⟩ =
      { demoSweepStore.get ⟨0, by decide⟩ with status := ItemStatus.closed } ∧
    (closeExpiredItems 0 demoSweepStore).1.get ⟨1, by decide⟩ =
      { demoSweepStore.get ⟨1, by decide⟩ with status := ItemStatus.closed } ∧
    (closeExpiredItems 0 demoSweepStore).1.get ⟨2, by decide⟩ =
      demoSweepStore.get ⟨2, by decide⟩ ∧
    (closeExpiredItems 0 demoSweepStore).2 = 2 := by
  have h := c6_sweep_closes_exactly_expired 0 demoSweepStore
  refine ⟨?_, ?_, ?_, ?_⟩
  · exact ((h.2.1 0 (by decide) (by decide)).1) (by decide) (by decide)
  · exact ((h.2.1 1 (by decide) (by decide)).1) (by decide) (by decide)
  · exact ((h.2.1 2 (by decide) (by decide)).2.1) (by decide) (by decide)
  · rw [h.2.2]; decide

theorem get_frame_status (items : List Item) (id : Nat) (f : Item → Item)
    (hf : ∀ x, f x = { x with status := (f x).status })
    (i : Nat) (h : i < items.length) (h' : i < (setFirst items id f).length) :
    (setFirst items id f).get ⟨i, h'⟩ =
      { items.get ⟨i, h⟩ with status := ((setFirst items id f).get ⟨i, h'⟩).status } := by
  rcases get_setFirst_cases items id f i h h' with he | he
  · rw [he]
  · rw [he]; exact hf _

theorem get_frame_bid (items : List Item) (id : Nat) (f : Item → Item)
    (hf : ∀ x, f x = { x with currentBid := (f x).currentBid, bidCount := (f x).bidCount })
    (i : Nat) (h : i < items.length) (h' : i < (setFirst items id f).length) :
    (setFirst items id f).get ⟨i, h'⟩ =
      { items.get ⟨i, h⟩ with
          currentBid := ((setFirst items id f).get ⟨i, h'⟩).currentBid,
          bidCount := ((setFirst items id f).get ⟨i, h'⟩).bidCount } := by
  rcases get_setFirst_cases items id f i h h' with he | he
  · rw [he]
  · rw [he]; exact hf _

theorem checkExpirationItem_frame (now : Int) (x : Item) :
    checkExpirationItem now x =
      { x with status := (checkExpirationItem now x).status } := by
  unfold checkExpirationItem
  split <;> rfl

/-- C9: frame condition — `updateItemStatus` changes only the `status` field
of the addressed item, `placeBid` changes only `currentBid` and `bidCount`,
the lazy check and the eager sweep (built on `updateItemStatus`) change only
`status`; no operation touches `id`, `title`, `description`,
`startingPrice`, `endsAt` or `createdAt`, nor any field of an item with a
different id (the sweep, by design, may flip the status of every expired
item, but nothing else). -/
theorem c9_frame_condition (items : List Item) (id : Nat) (st : ItemStatus)
    (amount : Int) (now : Int) (probe : Item) :
    (∀ i (h : i < items.length) (h' : i < (updateItemStatus items id st).2.length),
       (updateItemStatus items id st).2.get ⟨i, h'⟩ =
         { items.get ⟨i, h⟩ with
             status := ((updateItemStatus items id st).2.get ⟨i, h'⟩).status } ∧
       ((items.get ⟨i, h⟩).id ≠ id →
          (updateItemStatus items id st).2.get ⟨i, h'⟩ = items.get ⟨i, h⟩)) ∧
    (∀ i (h : i < items.length) (h' : i < (placeBid items id amount).2.length),
       (placeBid items id amount).2.get ⟨i, h'⟩ =
         { items.get ⟨i, h⟩ with
             currentBid := ((placeBid items id amount).2.get ⟨i, h'⟩).currentBid,
             bidCount := ((placeBid items id amount).2.get ⟨i, h'⟩).bidCount } ∧
       ((items.get ⟨i, h⟩).id ≠ id →
          (placeBid items id amount).2.get ⟨i, h'⟩ = items.get ⟨i, h⟩)) ∧
    (∀ i (h : i < items.length) (h' : i < (checkExpiration items probe now).2.length),
       (checkExpiration items probe now).2.get ⟨i, h'⟩ =
         { items.get ⟨i, h⟩ with
             status := ((checkExpiration items probe now).2.get ⟨i, h'⟩).status } ∧
       ((items.get ⟨i, h⟩).id ≠ probe.id →
          (checkExpiration items probe now).2.get ⟨i, h'⟩ = items.get ⟨i, h⟩)) ∧
    (∀ i (h : i < items.length) (h' : i < (closeExpiredItems now items).1.length),
       (closeExpiredItems now items).1.get ⟨i, h'⟩ =
         { items.get ⟨i, h⟩ with
             status := ((closeExpiredItems now items).1.get ⟨i, h'⟩).status }) := by
  refine ⟨?_, ?_, ?_, ?_⟩
  · rw [updateItemStatus_snd]
    intro i h h'
    exact ⟨get_frame_status items id _ (fun _ => rfl) i h h',
           fun hne => get_setFirst_of_ne items id _ i h h' hne⟩
  · rcases placeBid_snd items id amount with he | he <;> rw [he]
    · intro i h h'
      exact ⟨rfl, fun _ => rfl⟩
    · intro i h h'
      exact ⟨get_frame_bid items id _ (fun _ => rfl) i h h',
             fun hne => get_setFirst_of_ne items id _ i h h' hne⟩
  · rcases checkExpiration_snd items probe now with he | he <;> rw [he]
    · intro i h h'
      exact ⟨rfl, fun _ => rfl⟩
    · intro i h h'
      exact ⟨get_frame_status items probe.id _ (fun _ => rfl) i h h',
             fun hne => get_setFirst_of_ne items probe.id _ i h h' hne⟩
  · intro i h h'
    have hg : (closeExpiredItems now items).1.get ⟨i, h'⟩ =
        checkExpirationItem now (items.get ⟨i, h⟩) := by
      simp only [List.get_eq_getElem]
      simp only [closeExpiredItems_fst now items, List.getElem_map]
    rw [hg]
    exact checkExpirationItem_frame now _

/-- Witness for C9: on the demo ledger, flipping item 1's status leaves all
its other fields as they were, an accepted bid on item 1 leaves its status
and identity fields as they were, and the sweep leaves the unexpired demo
item untouched apart from its (unchanged) status. -/
theorem c9_witness :
    (updateItemStatus [demoActiveItem] 1 ItemStatus.closed).2.get ⟨0, by decide⟩ =
      { demoActiveItem with
          status := ((updateItemStatus [demoActiveItem] 1 ItemStatus.closed).2.get
            ⟨0, by decide⟩).status } ∧
    (placeBid [demoActiveItem] 1 50).2.get ⟨0, by decide⟩ =
      { demoActiveItem with
          currentBid := ((placeBid [demoActiveItem] 1 50).2.get ⟨0, by decide⟩).currentBid,
          bidCount := ((placeBid [demoActiveItem] 1 50).2.get ⟨0, by decide⟩).bidCount } ∧
    (placeBid [demoActiveItem, demoSweepStore.get ⟨2, by decide⟩] 1 50).2.get ⟨1, by decide⟩ =
      demoSweepStore.get ⟨2, by decide⟩ := by
  have h1 := c9_frame_condition [demoActiveItem] 1 ItemStatus.closed 50 0 demoActiveItem
  have h2 := c9_frame_condition [demoActiveItem, demoSweepStore.get ⟨2, by decide⟩] 1
    ItemStatus.closed 50 0 demoActiveItem
  exact ⟨(h1.1 0 (by decide) (by decide)).1,
         (h1.2.1 0 (by decide) (by decide)).1,
         (h2.2.1 1 (by decide) (by decide)).2 (by decide)⟩

theorem checkExpiration_of_expired (items : List Item) (it : Item) (now : Int)
    (hexp : isExpired it.endsAt now = true) :
    (checkExpiration items it now).1.status = ItemStatus.closed ∧
    (checkExpiration items it now).2.map (fun x => (x.currentBid, x.bidCount)) =
      items.map (fun x => (x.currentBid, x.bidCount)) := by
  unfold checkExpiration
  by_cases hc : it.status = ItemStatus.active ∧ isExpired it.endsAt now
  · rw [if_pos hc]
    refine ⟨rfl, ?_⟩
    rw [updateItemStatus_snd]
    exact setFirst_map_comp items it.id _ _ (fun _ => rfl)
  · rw [if_neg hc]
    refine ⟨?_, rfl⟩
    cases hst : it.status with
    | active => exact absurd ⟨hst, hexp⟩ hc
    | closed => rfl

/-- C2: a bid request on an item whose deadline has passed under the route's
clock (`now >= endsAt`) — whatever the item's cached status — passes shape
validation, is answered with the distinguishable "Auction has ended"
signal before any minimum-bid evaluation, and leaves every item's bid state
(`currentBid`, `bidCount`) untouched: `placeBid` is never reached. -/
theorem c2_expired_bid_rejected (items : List Item) (id : Nat) (input : BidInput)
    (now : Int) (it : Item)
    (ha : validAmount input.amount = true) (hb : validBidder input.bidderId = true)
    (hfind : getItemById items id = some it) (hdl : it.endsAt ≤ now) :
    (bidRoute items id input now).1 = BidResponse.auctionEnded ∧
    (bidRoute items id input now).2.map (fun x => (x.currentBid, x.bidCount)) =
      items.map (fun x => (x.currentBid, x.bidCount)) := by
  have hexp := (isExpired_true_iff it.endsAt now).mpr hdl
  have hch := checkExpiration_of_expired items it now hexp
  have hroute : bidRoute items id input now =
      (BidResponse.auctionEnded, (checkExpiration items it now).2) := by
    simp only [bidRoute, ha, hb, Bool.not_true, Bool.false_eq_true, if_false]
    rw [hfind]
    simp only [if_pos hch.1]
  rw [hroute]
  exact ⟨rfl, hch.2⟩

/-- Witness for C2: a well-formed bid of 50 at `now = 100`, the exact
deadline of the active demo item, is rejected with "Auction has ended"
and no bid state changes (expiry is inclusive at the boundary). -/
theorem c2_witness :
    (bidRoute [demoActiveItem] 1 ⟨some 50, some "alice"⟩ 100).1 =
      BidResponse.auctionEnded ∧
    (bidRoute [demoActiveItem] 1 ⟨some 50, some "alice"⟩ 100).2.map
        (fun x => (x.currentBid, x.bidCount)) =
      [demoActiveItem].map (fun x => (x.currentBid, x.bidCount)) :=
  c2_expired_bid_rejected [demoActiveItem] 1 ⟨some 50, some "alice"⟩ 100
    demoActiveItem (by decide) (by decide) rfl (by decide)

/-- C10 (implicit, code-only): in the bid endpoint, amount validation runs
before the item lookup and before the expiration check, so any request with
a non-numeric or non-positive amount gets the 400 "amount must be a
positive number" answer — for every ledger, every id (present or not) and
every clock — and the ledger is left unmodified. -/
theorem c10_amount_validation_first (items : List Item) (id : Nat)
    (input : BidInput) (now : Int) (h : validAmount input.amount = false) :
    bidRoute items id input now = (BidResponse.badAmount, items) := by
  simp [bidRoute, h]

/-- Witness for C10: a zero amount on an id that does not exist, and a
missing amount on an already-ended auction, both answer `badAmount` —
neither the 404 branch nor the "Auction has ended" branch is reached. -/
theorem c10_witness :
    bidRoute [demoClosedItem] 7 ⟨some 0, some "alice"⟩ 0 =
      (BidResponse.badAmount, [demoClosedItem]) ∧
    bidRoute [demoClosedItem] 1 ⟨none, some "alice"⟩ 200 =
      (BidResponse.badAmount, [demoClosedItem]) :=
  ⟨c10_amount_validation_first [demoClosedItem] 7 ⟨some 0, some "alice"⟩ 0 (by decide),
   c10_amount_validation_first [demoClosedItem] 1 ⟨none, some "alice"⟩ 200 (by decide)⟩

/-- C5: over any sequence of bid requests on one item, the accepted amounts
are strictly increasing (each also exceeding the item's starting-price
floor and any pre-existing bid), a non-null `currentBid` always strictly
exceeds `startingPrice`, and `bidCount` grows by exactly the number of
accepted bids. -/
theorem c5_accepted_bids_increase (amounts : List Int) (items : List Item)
    (id : Nat) (it : Item)
    (hfind : getItemById items id = some it)
    (hinv : ∀ b, it.currentBid = some b → it.startingPrice < b) :
    ∃ fin, getItemById (applyBidsStore id items amounts).1 id = some fin ∧
      List.Chain' (fun a b => a < b)
        (it.currentBid.toList ++ (applyBidsStore id items amounts).2) ∧
      (∀ a ∈ (applyBidsStore id items amounts).2, it.startingPrice < a) ∧
      fin.bidCount = it.bidCount + (applyBidsStore id items amounts).2.length ∧
      fin.startingPrice = it.startingPrice ∧
      (∀ b, fin.currentBid = some b → fin.startingPrice < b) := by
  induction amounts generalizing items it with
  | nil =>
      refine ⟨it, hfind, ?_, ?_, rfl, rfl, hinv⟩
      · cases it.currentBid <;> simp [applyBidsStore, Option.toList]
      · simp [applyBidsStore]
  | cons a rest ih =>
      have hpb := placeBid_of_found items id a it hfind
      by_cases hle : a ≤ it.currentBid.getD it.startingPrice
      · have hr : placeBid items id a = (none, items) := by rw [hpb, if_pos hle]
        have hres : applyBidsStore id items (a :: rest) =
            applyBidsStore id items rest := by
          simp only [applyBidsStore, hr]
        rw [hres]
        exact ih items it hfind hinv
      · have hlt : it.currentBid.getD it.startingPrice < a := by omega
        have hr : placeBid items id a =
            (some { it with currentBid := some a, bidCount := it.bidCount + 1 },
             setFirst items id
               (fun x => { x with currentBid := some a, bidCount := x.bidCount + 1 })) := by
          rw [hpb, if_neg (by omega)]
        have hres : applyBidsStore id items (a :: rest) =
            ((applyBidsStore id
                (setFirst items id
                  (fun x => { x with currentBid := some a, bidCount := x.bidCount + 1 }))
                rest).1,
             a :: (applyBidsStore id
                (setFirst items id
                  (fun x => { x with currentBid := some a, bidCount := x.bidCount + 1 }))
                rest).2) := by
          simp only [applyBidsStore, hr]
        have hfind' : getItemById
            (setFirst items id
              (fun x => { x with currentBid := some a, bidCount := x.bidCount + 1 })) id =
            some { it with currentBid := some a, bidCount := it.bidCount + 1 } := by
          have hset := find?_setFirst_eq items id
            (fun x => { x with currentBid := some a, bidCount := x.bidCount + 1 })
            (fun _ => rfl)
          simp only [getItemById] at hfind ⊢
          rw [hset, hfind]
          rfl
        have hsp : it.startingPrice < a := by
          rcases hcb : it.currentBid with _ | c
          · rw [hcb] at hlt
            simpa using hlt
          · have := hinv c hcb
            rw [hcb] at hlt
            simp only [Option.getD_some] at hlt
            omega
        have hinv' : ∀ b,
            ({ it with currentBid := some a, bidCount := it.bidCount + 1 } : Item).currentBid =
              some b →
            ({ it with currentBid := some a, bidCount := it.bidCount + 1 } : Item).startingPrice
              < b := by
          intro b hb
          simp only [Option.some.injEq] at hb
          rw [← hb]
          exact hsp
        obtain ⟨fin, hfin, hchain, hall, hcount, hspfin, hinvfin⟩ := ih _ _ hfind' hinv'
        rw [hres]
        refine ⟨fin, hfin, ?_, ?_, ?_, ?_, hinvfin⟩
        · rcases hcb : it.currentBid with _ | c
          · simpa [Option.toList] using hchain
          · have hca : c < a := by
              rw [hcb] at hlt
              simpa using hlt
            simp only [Option.toList, List.cons_append, List.nil_append]
            rw [List.chain'_cons]
            exact ⟨hca, by simpa [Option.toList] using hchain⟩
        · intro x hx
          rcases List.mem_cons.mp hx with rfl | hx'
          · exact hsp
          · simpa using hall x hx'
        · rw [hcount]
          simp only [List.length_cons]
          omega
        · simpa using hspfin

/-- Witness for C5: on the fresh demo item (starting price 10), the request
sequence 15, 12, 20, 20, 30 accepts exactly 15, 20, 30 — strictly
increasing, all above 10 — and the final item has `currentBid = 30` and
`bidCount = 3`. -/
theorem c5_witness :
    (applyBidsStore 1 [demoActiveItem] [15, 12, 20, 20, 30]).2 = [15, 20, 30] ∧
    ∃ fin, getItemById (applyBidsStore 1 [demoActiveItem] [15, 12, 20, 20, 30]).1 1 =
        some fin ∧
      fin.bidCount = demoActiveItem.bidCount +
        (applyBidsStore 1 [demoActiveItem] [15, 12, 20, 20, 30]).2.length ∧
      (∀ b, fin.currentBid = some b → fin.startingPrice < b) := by
  refine ⟨by decide, ?_⟩
  obtain ⟨fin, hfin, _, _, hcount, _, hinvfin⟩ :=
    c5_accepted_bids_increase [15, 12, 20, 20, 30] [demoActiveItem] 1 demoActiveItem
      rfl (by intro b hb; cases hb)
  exact ⟨fin, hfin, hcount, hinvfin⟩

theorem getItemRoute_snd (items : List Item) (id : Nat) (now : Int) :
    (getItemRoute items id now).2 = items ∨
    ∃ pid, (getItemRoute items id now).2 =
      setFirst items pid (fun x => { x with status := ItemStatus.closed }) := by
  unfold getItemRoute
  cases hfind : getItemById items id with
  | none => left; rfl
  | some it =>
      rcases checkExpiration_snd items it now with he | he
      · left; simpa using he
      · right; exact ⟨it.id, by simpa using he⟩

theorem bidRoute_snd (items : List Item) (id : Nat) (input : BidInput) (now : Int) :
    (bidRoute items id input now).2 = items ∨
    (∃ pid, (bidRoute items id input now).2 =
       setFirst items pid (fun x => { x with status := ItemStatus.closed })) ∨
    (∃ a, (bidRoute items id input now).2 =
       setFirst items id
         (fun x => { x with currentBid := some a, bidCount := x.bidCount + 1 })) := by
  cases h1 : validAmount input.amount with
  | false => left; simp [bidRoute, h1]
  | true =>
      cases h2 : validBidder input.bidderId with
      | false => left; simp [bidRoute, h1, h2]
      | true =>
          cases hfind : getItemById items id with
          | none => left; simp [bidRoute, h1, h2, hfind]
          | some item =>
              by_cases hc : item.status = ItemStatus.active ∧ isExpired item.endsAt now
              · have hch1 : (checkExpiration items item now).1 =
                    { item with status := ItemStatus.closed } := by
                  unfold checkExpiration; rw [if_pos hc]
                have hch2 : (checkExpiration items item now).2 =
                    setFirst items item.id
                      (fun x => { x with status := ItemStatus.closed }) := by
                  unfold checkExpiration
                  rw [if_pos hc]
                  exact updateItemStatus_snd items item.id ItemStatus.closed
                right; left
                refine ⟨item.id, ?_⟩
                simp only [bidRoute, h1, h2, Bool.not_true, Bool.false_eq_true,
                  if_false, hfind]
                simp [hch1, hch2]
              · have hch : checkExpiration items item now = (item, items) := by
                  unfold checkExpiration; rw [if_neg hc]
                by_cases hcl : item.status = ItemStatus.closed
                · left
                  simp only [bidRoute, h1, h2, Bool.not_true, Bool.false_eq_true,
                    if_false, hfind]
                  simp [hch, hcl]
                · by_cases hlow : input.amount.getD 0 ≤
                      item.currentBid.getD item.startingPrice
                  · left
                    simp only [bidRoute, h1, h2, Bool.not_true, Bool.false_eq_true,
                      if_false, hfind]
                    simp [hch, hcl, hlow]
                  · have hmain : (bidRoute items id input now).2 =
                        (placeBid items id (input.amount.getD 0)).2 := by
                      simp only [bidRoute, h1, h2, Bool.not_true, Bool.false_eq_true,
                        if_false, hfind]
                      simp [hch, hcl, hlow]
                      cases hp1 : (placeBid items id (input.amount.getD 0)).1 <;>
                        simp [hp1]
                    rcases placeBid_snd items id (input.amount.getD 0) with hp | hp
                    · left; rw [hmain, hp]
                    · right; right
                      exact ⟨input.amount.getD 0, by rw [hmain, hp]⟩

theorem wf_any_fresh (s : StoreState) (hwf : wfState s = true) :
    s.items.any (byId s.nextId) = false := by
  rw [List.any_eq_false]
  intro it hit
  have hlt : it.id < s.nextId := by
    have := (List.all_eq_true.mp hwf) it hit
    simpa using this
  simp [byId]
  omega

theorem applyOp_items_shape (s : StoreState) (op : Op) (hwf : wfState s = true) :
    (applyOp s op).items = s.items ∨
    (∃ x : Item, x.id = s.nextId ∧ (applyOp s op).items = s.items ++ [x]) ∨
    (∃ pid, (applyOp s op).items =
       setFirst s.items pid (fun x => { x with status := ItemStatus.closed })) ∨
    (∃ pid a, (applyOp s op).items =
       setFirst s.items pid
         (fun x => { x with currentBid := some a, bidCount := x.bidCount + 1 })) ∨
    (∃ n : Int, (applyOp s op).items = s.items.map (checkExpirationItem n)) := by
  cases op with
  | create input now =>
      right; left
      refine ⟨(createItem s input now).1, rfl, ?_⟩
      show mapSet s.items _ = _
      simp [mapSet, createItem, wf_any_fresh s hwf]
  | getOne id now =>
      rcases getItemRoute_snd s.items id now with he | ⟨pid, he⟩
      · left; exact he
      · right; right; left; exact ⟨pid, he⟩
  | getAll now =>
      right; right; right; right
      exact ⟨now, rfl⟩
  | sweep now =>
      right; right; right; right
      exact ⟨now, closeExpiredItems_fst now s.items⟩
  | bid id input now =>
      rcases bidRoute_snd s.items id input now with he | ⟨pid, he⟩ | ⟨a, he⟩
      · left; exact he
      · right; right; left; exact ⟨pid, he⟩
      · right; right; right; left; exact ⟨id, a, he⟩

theorem step_preserves_closed (s : StoreState) (op : Op) (hwf : wfState s = true)
    (id : Nat) (it : Item) (hfind : getItemById s.items id = some it)
    (hst : it.status = ItemStatus.closed) :
    ∃ it', getItemById (applyOp s op).items id = some it' ∧
      it'.status = ItemStatus.closed := by
  rcases applyOp_items_shape s op hwf with he | ⟨x, _, he⟩ | ⟨pid, he⟩ |
    ⟨pid, a, he⟩ | ⟨n, he⟩
  · exact ⟨it, by rw [he]; exact hfind, hst⟩
  · exact ⟨it, by rw [he]; exact find?_append_of_some s.items [x] _ it hfind, hst⟩
  · by_cases hpid : id = pid
    · subst hpid
      refine ⟨{ it with status := ItemStatus.closed }, ?_, rfl⟩
      unfold getItemById at hfind ⊢
      rw [he, find?_setFirst_eq s.items id
        (fun x => { x with status := ItemStatus.closed }) (fun _ => rfl), hfind]
      rfl
    · exact ⟨it, by
        unfold getItemById at hfind ⊢
        rw [he, find?_setFirst_ne s.items pid id
          (fun x => { x with status := ItemStatus.closed }) (fun _ => rfl) hpid]
        exact hfind, hst⟩
  · by_cases hpid : id = pid
    · subst hpid
      refine ⟨{ it with currentBid := some a, bidCount := it.bidCount + 1 }, ?_, hst⟩
      unfold getItemById at hfind ⊢
      rw [he, find?_setFirst_eq s.items id
        (fun x => { x with currentBid := some a, bidCount := x.bidCount + 1 })
        (fun _ => rfl), hfind]
      rfl
    · exact ⟨it, by
        unfold getItemById at hfind ⊢
        rw [he, find?_setFirst_ne s.items pid id
          (fun x => { x with currentBid := some a, bidCount := x.bidCount + 1 })
          (fun _ => rfl) hpid]
        exact hfind, hst⟩
  · refine ⟨checkExpirationItem n it, ?_, checkExpirationItem_closed n it hst⟩
    unfold getItemById at hfind ⊢
    rw [he, find?_map_idpres s.items _ (checkExpirationItem_id n) id, hfind]
    rfl

theorem applyOp_nextId (s : StoreState) (op : Op) :
    (applyOp s op).nextId = s.nextId ∨
    ((applyOp s op).nextId = s.nextId + 1 ∧
     ∃ input now, op = Op.create input now) := by
  cases op with
  | create input now => right; exact ⟨rfl, input, now, rfl⟩
  | getOne id now => left; rfl
  | getAll now => left; rfl
  | sweep now => left; rfl
  | bid id input now => left; rfl

theorem mem_setFirst_id (items : List Item) (id : Nat) (f : Item → Item)
    (hf : ∀ z, (f z).id = z.id) (x : Item) (hx : x ∈ setFirst items id f) :
    ∃ y ∈ items, x.id = y.id := by
  induction items with
  | nil => simp [setFirst] at hx
  | cons it rest ih =>
      by_cases hc : it.id == id
      · rw [setFirst, if_pos hc] at hx
        rcases List.mem_cons.mp hx with rfl | hx'
        · exact ⟨it, List.mem_cons_self it rest, hf it⟩
        · exact ⟨x, List.mem_cons_of_mem it hx', rfl⟩
      · rw [setFirst, if_neg hc] at hx
        rcases List.mem_cons.mp hx with rfl | hx'
        · exact ⟨x, List.mem_cons_self x rest, rfl⟩
        · obtain ⟨y, hy, hxy⟩ := ih hx'
          exact ⟨y, List.mem_cons_of_mem it hy, hxy⟩

theorem applyOp_wf (s : StoreState) (op : Op) (hwf : wfState s = true) :
    wfState (applyOp s op) = true := by
  have hwf' := List.all_eq_true.mp hwf
  have hbound : ∀ y ∈ s.items, y.id < s.nextId := by
    intro y hy
    simpa using hwf' y hy
  cases op with
  | create input now =>
      rw [wfState, List.all_eq_true]
      intro x hx
      have happ : (applyOp s (Op.create input now)).items = s.items ++
          [(createItem s input now).1] := by
        show mapSet s.items _ = _
        simp [mapSet, createItem, wf_any_fresh s hwf]
      rw [happ] at hx
      have hnext : (applyOp s (Op.create input now)).nextId = s.nextId + 1 := rfl
      rw [hnext]
      rcases List.mem_append.mp hx with hx' | hx'
      · have := hbound x hx'
        simp only [decide_eq_true_eq]
        omega
      · have hxc : x = (createItem s input now).1 := by simpa using hx'
        rw [hxc]
        show decide ((createItem s input now).1.id < s.nextId + 1) = true
        simp [createItem]
  | getOne id now =>
      rw [wfState, List.all_eq_true]
      intro x hx
      have hnext : (applyOp s (Op.getOne id now)).nextId = s.nextId := rfl
      rw [hnext]
      simp only [decide_eq_true_eq]
      rcases getItemRoute_snd s.items id now with he | ⟨pid, he⟩
      · have hx' : x ∈ s.items := by
          have : (applyOp s (Op.getOne id now)).items = s.items := he
          rw [this] at hx
          exact hx
        exact hbound x hx'
      · have : (applyOp s (Op.getOne id now)).items =
            setFirst s.items pid (fun z => { z with status := ItemStatus.closed }) := he
        rw [this] at hx
        obtain ⟨y, hy, hxy⟩ := mem_setFirst_id s.items pid
          (fun z => { z with status := ItemStatus.closed }) (fun _ => rfl) x hx
        rw [hxy]
        exact hbound y hy
  | getAll now =>
      rw [wfState, List.all_eq_true]
      intro x hx
      simp only [decide_eq_true_eq]
      have : (applyOp s (Op.getAll now)).items =
          s.items.map (checkExpirationItem now) := rfl
      rw [this] at hx
      obtain ⟨y, hy, hxy⟩ := List.mem_map.mp hx
      rw [← hxy, checkExpirationItem_id]
      exact hbound y hy
  | sweep now =>
      rw [wfState, List.all_eq_true]
      intro x hx
      simp only [decide_eq_true_eq]
      have : (applyOp s (Op.sweep now)).items =
          s.items.map (checkExpirationItem now) := closeExpiredItems_fst now s.items
      rw [this] at hx
      obtain ⟨y, hy, hxy⟩ := List.mem_map.mp hx
      rw [← hxy, checkExpirationItem_id]
      exact hbound y hy
  | bid id input now =>
      rw [wfState, List.all_eq_true]
      intro x hx
      simp only [decide_eq_true_eq]
      rcases bidRoute_snd s.items id input now with he | ⟨pid, he⟩ | ⟨a, he⟩
      · have : (applyOp s (Op.bid id input now)).items = s.items := he
        rw [this] at hx
        exact hbound x hx
      · have : (applyOp s (Op.bid id input now)).items =
            setFirst s.items pid (fun z => { z with status := ItemStatus.closed }) := he
        rw [this] at hx
        obtain ⟨y, hy, hxy⟩ := mem_setFirst_id s.items pid
          (fun z => { z with status := ItemStatus.closed }) (fun _ => rfl) x hx
        rw [hxy]
        exact hbound y hy
      · have : (applyOp s (Op.bid id input now)).items =
            setFirst s.items id
              (fun z => { z with currentBid := some a, bidCount := z.bidCount + 1 }) := he
        rw [this] at hx
        obtain ⟨y, hy, hxy⟩ := mem_setFirst_id s.items id
          (fun z => { z with currentBid := some a, bidCount := z.bidCount + 1 })
          (fun _ => rfl) x hx
        rw [hxy]
        exact hbound y hy

/-- C1: persistence of `closed` — under every sequence of system operations
(item creation, the lazy checks of the read routes, the eager sweep, and
the bid route), an item observed `closed` stays present and `closed`
forever.  Since `status` has only the two values `active` and `closed`,
this is exactly the claim that each item's status transitions at most once,
from `active` to `closed`, and never back, however many further checks or
sweeps run.  The hypothesis `wfState` (every stored id is below the id
counter) holds for every state the store can actually reach and is
preserved by every operation (`applyOp_wf`). -/
theorem c1_closed_persists (ops : List Op) (s : StoreState) (id : Nat) (it : Item)
    (hwf : wfState s = true) (hfind : getItemById s.items id = some it)
    (hst : it.status = ItemStatus.closed) :
    ∃ it', getItemById (applyOps s ops).items id = some it' ∧
      it'.status = ItemStatus.closed := by
  induction ops generalizing s it with
  | nil => exact ⟨it, hfind, hst⟩
  | cons op rest ih =>
      obtain ⟨it', hfind', hst'⟩ := step_preserves_closed s op hwf id it hfind hst
      exact ih (applyOp s op) it' (applyOp_wf s op hwf) hfind' hst'

/-- Witness for C1: starting from a ledger holding the closed demo item,
a sweep, a full read, a single read, a bid attempt and a fresh creation
leave item 1 present and `closed`. -/
theorem c1_witness :
    ∃ it', getItemById (applyOps { nextId := 2, items := [demoClosedItem] }
        [Op.sweep 0, Op.getAll 200, Op.getOne 1 300,
         Op.bid 1 ⟨some 50, some "alice"⟩ 400,
         Op.create ⟨"lamp", "brass", 5, 1000⟩ 500]).items 1 = some it' ∧
      it'.status = ItemStatus.closed :=
  c1_closed_persists
    [Op.sweep 0, Op.getAll 200, Op.getOne 1 300,
     Op.bid 1 ⟨some 50, some "alice"⟩ 400,
     Op.create ⟨"lamp", "brass", 5, 1000⟩ 500]
    { nextId := 2, items := [demoClosedItem] } 1 demoClosedItem
    (by decide) rfl rfl

end CountdownAuction
